import Mathlib

/-!
Verification of the numerical statistics engine of
`straxen/plugins/event_patternfit.py`.

The Python code computes with IEEE floating point over numpy arrays.  The
embedding models a floating-point cell as a rational number or NaN
(`Val` below); `+∞/−∞` are not modelled, and the two places where the code
could produce an infinity (`np.log 0` and division by an exact zero) are
mapped to NaN instead — no theorem below evaluates the embedding there,
every statement keeps those points outside its hypotheses.  The
transcendental kernels `np.log` and `scipy.special.loggamma` are taken as
parameters `flog flgam : ℚ → ℚ` restricted to their real domain (positive
arguments); outside that domain the wrappers return NaN exactly as the
error-suppressed numpy calls produce NaN (log of a negative number,
loggamma of a non-positive real).  All claims proved through these
functions hold for every interpretation of the parameters, hence in
particular for the real log / log-Gamma.
-/

namespace EventPatternFit

/-- One floating-point cell: a (finite) real value, modelled as a rational,
or NaN. -/
inductive Val where
  | nan : Val
  | real : ℚ → Val
deriving DecidableEq

namespace Val

/-- Addition; NaN is absorbing, as in IEEE arithmetic. -/
def add : Val → Val → Val
  | real a, real b => real (a + b)
  | _, _ => nan

/-- Subtraction; NaN is absorbing. -/
def sub : Val → Val → Val
  | real a, real b => real (a - b)
  | _, _ => nan

/-- Multiplication; NaN is absorbing (in IEEE, NaN * 0 = NaN as well). -/
def mul : Val → Val → Val
  | real a, real b => real (a * b)
  | _, _ => nan

/-- Division; NaN is absorbing.  Division by an exact zero is mapped to
NaN (numpy would produce ±inf or NaN there; no theorem below divides by
zero). -/
def div : Val → Val → Val
  | real a, real b => if b = 0 then nan else real (a / b)
  | _, _ => nan

instance : Add Val := ⟨add⟩
instance : Sub Val := ⟨sub⟩
instance : Mul Val := ⟨mul⟩
instance : Div Val := ⟨div⟩

/-- `v > 0` in float comparison semantics: false on NaN. -/
def isPos : Val → Bool
  | real a => decide (0 < a)
  | nan => false

/-- `v < 0` in float comparison semantics: false on NaN. -/
def isNeg : Val → Bool
  | real a => decide (a < 0)
  | nan => false

/-- `np.log` with the interpretation parameter `flog` on the positive
reals; NaN on NaN, on negative arguments (numpy: NaN with a suppressed
invalid warning) and on zero (numpy: −inf, not modelled; never evaluated
by the theorems below). -/
def log (flog : ℚ → ℚ) : Val → Val
  | real a => if 0 < a then real (flog a) else nan
  | nan => nan

/-- `scipy.special.loggamma` with the interpretation parameter `flgam` on
the positive reals; NaN on NaN and on non-positive reals (the real
loggamma is complex/singular there; never evaluated by the theorems
below). -/
def lgam (flgam : ℚ → ℚ) : Val → Val
  | real a => if 0 < a then real (flgam a) else nan
  | nan => nan

/-- `np.sum` over a vector of cells; NaN in any entry makes the sum NaN. -/
def sum (l : List Val) : Val := l.foldr add (real 0)

@[simp] theorem add_real_real (a b : ℚ) : real a + real b = real (a + b) := rfl

@[simp] theorem add_nan_left (v : Val) : nan + v = nan := rfl

@[simp] theorem add_nan_right (v : Val) : v + nan = nan := by cases v <;> rfl

@[simp] theorem sub_real_real (a b : ℚ) : real a - real b = real (a - b) := rfl

@[simp] theorem sub_nan_left (v : Val) : nan - v = nan := rfl

@[simp] theorem sub_nan_right (v : Val) : v - nan = nan := by cases v <;> rfl

@[simp] theorem mul_real_real (a b : ℚ) : real a * real b = real (a * b) := rfl

@[simp] theorem mul_nan_left (v : Val) : nan * v = nan := rfl

@[simp] theorem mul_nan_right (v : Val) : v * nan = nan := by cases v <;> rfl

@[simp] theorem div_nan_left (v : Val) : nan / v = nan := by cases v <;> rfl

@[simp] theorem div_nan_right (v : Val) : v / nan = nan := by cases v <;> rfl

@[simp] theorem div_real_real (a b : ℚ) :
    real a / real b = if b = 0 then nan else real (a / b) := rfl

@[simp] theorem isPos_nan : isPos nan = false := rfl

@[simp] theorem isPos_real (a : ℚ) : isPos (real a) = decide (0 < a) := rfl

@[simp] theorem isNeg_nan : isNeg nan = false := rfl

@[simp] theorem isNeg_real (a : ℚ) : isNeg (real a) = decide (a < 0) := rfl

@[simp] theorem log_nan (flog : ℚ → ℚ) : log flog nan = nan := rfl

@[simp] theorem log_real (flog : ℚ → ℚ) (a : ℚ) :
    log flog (real a) = if 0 < a then real (flog a) else nan := rfl

@[simp] theorem lgam_nan (flgam : ℚ → ℚ) : lgam flgam nan = nan := rfl

@[simp] theorem lgam_real (flgam : ℚ → ℚ) (a : ℚ) :
    lgam flgam (real a) = if 0 < a then real (flgam a) else nan := rfl

@[simp] theorem sum_nil : sum [] = real 0 := rfl

@[simp] theorem sum_cons (v : Val) (l : List Val) : sum (v :: l) = v + sum l := rfl

/-- A NaN entry poisons the whole sum, matching `np.sum` over floats. -/
theorem sum_eq_nan_of_mem {l : List Val} (h : nan ∈ l) : sum l = nan := by
  induction l with
  | nil => cases h
  | cons v l ih =>
    rcases List.mem_cons.mp h with h | h
    · simp [← h]
    · simp [ih h]

end Val

/-!
## `neg2llh_modpoisson` (event_patternfit.py, lines 301–321)

```python
with np.errstate(divide='ignore', invalid='ignore'):
    res = 2.*(mu -
              (areas/mean_pe_photon)*np.log(mu) +
              loggamma((areas/mean_pe_photon)+1) +
              np.log(mean_pe_photon))
is_zero = ~(areas>0)    # If area equals or smaller than 0 - assume 0
res[is_zero] = 2.*mu[is_zero]
neg_mu = mu<0.0
res[is_zero*neg_mu] = 0.0
```

The overrides are applied after the vectorized formula, so per channel the
net value is: formula when `area > 0` (NaN area compares false, hence is
treated as an empty channel), else `0` when `mu < 0` (NaN mu compares
false), else `2*mu`.
-/

/-- One channel of `neg2llh_modpoisson`: the error-suppressed formula when
the observed area is strictly positive, otherwise the `is_zero` /
`neg_mu` overrides exactly as the boolean-mask assignments produce them. -/
def neg2llh_chan (flog flgam : ℚ → ℚ) (mpp : ℚ) (mu area : Val) : Val :=
  if area.isPos then
    Val.real 2 * (mu - (area / Val.real mpp) * Val.log flog mu
      + Val.lgam flgam ((area / Val.real mpp) + Val.real 1)
      + Val.log flog (Val.real mpp))
  else if mu.isNeg then Val.real 0 else Val.real 2 * mu

/-- `neg2llh_modpoisson(mu, areas, mean_pe_photon)`, elementwise over the
two channel vectors. -/
def neg2llh_modpoisson (flog flgam : ℚ → ℚ) (mu areas : List Val) (mpp : ℚ) :
    List Val :=
  List.zipWith (neg2llh_chan flog flgam mpp) mu areas

@[simp] theorem neg2llh_chan_nan_mu (flog flgam : ℚ → ℚ) (mpp : ℚ) (area : Val) :
    neg2llh_chan flog flgam mpp Val.nan area = Val.nan := by
  unfold neg2llh_chan
  cases area with
  | nan => simp
  | real a =>
    by_cases h : (0 : ℚ) < a <;> simp [h]

/-!
## Aggregated likelihood-ratio statistic (event_patternfit.py, lines 215–218)

```python
arg1 = s1_pattern/self.mean_pe_photon, s1_area_per_channel, self.mean_pe_photon
arg2 = s1_area_per_channel/self.mean_pe_photon, s1_area_per_channel, self.mean_pe_photon
norm_llh_val = (neg2llh_modpoisson(*arg1) - neg2llh_modpoisson(*arg2))
result['s1_2llh'][cur_s1_bool] = np.sum(norm_llh_val, axis=1)
```
-/

/-- Per-channel difference of the predicted-model and saturated-model
statistics for one event. -/
def norm_llh_val (flog flgam : ℚ → ℚ) (mpp : ℚ) (pattern areas : List Val) :
    List Val :=
  List.zipWith Val.sub
    (neg2llh_modpoisson flog flgam (pattern.map (fun v => v / Val.real mpp)) areas mpp)
    (neg2llh_modpoisson flog flgam (areas.map (fun v => v / Val.real mpp)) areas mpp)

/-- The aggregated statistic for one event: the per-channel differences
summed over the channel subset. -/
def s1_2llh (flog flgam : ℚ → ℚ) (mpp : ℚ) (pattern areas : List Val) : Val :=
  Val.sum (norm_llh_val flog flgam mpp pattern areas)

/-- C2 — `neg2llh_modpoisson` channel override for non-positive observed
area: the result is exactly `2*mu` when `mu ≥ 0`, and exactly `0` when
additionally `mu < 0`. -/
theorem neg2llh_modpoisson_nonpositive_area
    (flog flgam : ℚ → ℚ) (mpp : ℚ) (mus areas : List Val) (i : ℕ)
    (hi : i < mus.length) (hi' : i < areas.length)
    (hlen : i < (neg2llh_modpoisson flog flgam mus areas mpp).length)
    (m a : ℚ) (hm : mus[i] = Val.real m) (ha : areas[i] = Val.real a)
    (hale : a ≤ 0) :
    (0 ≤ m → (neg2llh_modpoisson flog flgam mus areas mpp)[i] = Val.real (2 * m)) ∧
    (m < 0 → (neg2llh_modpoisson flog flgam mus areas mpp)[i] = Val.real 0) := by
  have hget : (neg2llh_modpoisson flog flgam mus areas mpp)[i]
      = neg2llh_chan flog flgam mpp mus[i] areas[i] := by
    simp [neg2llh_modpoisson, List.getElem_zipWith]
  rw [hget, hm, ha]
  unfold neg2llh_chan
  have hpos : ¬ (0 : ℚ) < a := not_lt.mpr hale
  constructor
  · intro h0
    have : ¬ m < 0 := not_lt.mpr h0
    simp [hpos, this]
  · intro h0
    simp [hpos, h0]

/-- C2 witness: the theorem evaluated for a channel with observed area `0`
and expectations `3` and `-1`. -/
theorem neg2llh_modpoisson_nonpositive_area_witness :
    (neg2llh_modpoisson (fun _ => 0) (fun _ => 0)
      [Val.real 3, Val.real (-1)] [Val.real 0, Val.real 0] 1)[0] = Val.real 6 ∧
    (neg2llh_modpoisson (fun _ => 0) (fun _ => 0)
      [Val.real 3, Val.real (-1)] [Val.real 0, Val.real 0] 1)[1] = Val.real 0 := by
  constructor
  · have h := (neg2llh_modpoisson_nonpositive_area (fun _ => 0) (fun _ => 0) 1
      [Val.real 3, Val.real (-1)] [Val.real 0, Val.real 0] 0
      (by decide) (by decide) (by decide) 3 0 rfl rfl (by norm_num)).1 (by norm_num)
    rw [h]
    norm_num
  · exact (neg2llh_modpoisson_nonpositive_area (fun _ => 0) (fun _ => 0) 1
      [Val.real 3, Val.real (-1)] [Val.real 0, Val.real 0] 1
      (by decide) (by decide) (by decide) (-1) 0 rfl rfl (by norm_num)).2 (by norm_num)

/-- C9 — a channel with a NaN observed area is picked up by the `is_zero`
mask (`NaN > 0` is false in float comparisons), so for a finite
non-negative expectation the channel value is overridden to `2*mu`, not
NaN. -/
theorem neg2llh_modpoisson_nan_area_override
    (flog flgam : ℚ → ℚ) (mpp : ℚ) (mus areas : List Val) (i : ℕ)
    (hi : i < mus.length) (hi' : i < areas.length)
    (hlen : i < (neg2llh_modpoisson flog flgam mus areas mpp).length)
    (m : ℚ) (hm : mus[i] = Val.real m) (ha : areas[i] = Val.nan)
    (h0 : 0 ≤ m) :
    (neg2llh_modpoisson flog flgam mus areas mpp)[i] = Val.real (2 * m) := by
  have hget : (neg2llh_modpoisson flog flgam mus areas mpp)[i]
      = neg2llh_chan flog flgam mpp mus[i] areas[i] := by
    simp [neg2llh_modpoisson, List.getElem_zipWith]
  rw [hget, hm, ha]
  unfold neg2llh_chan
  have : ¬ m < 0 := not_lt.mpr h0
  simp [this]

/-- C9 witness: NaN observed area with expectation `5` yields `10`. -/
theorem neg2llh_modpoisson_nan_area_override_witness :
    (neg2llh_modpoisson (fun _ => 0) (fun _ => 0)
      [Val.real 5] [Val.nan] 1)[0] = Val.real 10 := by
  have h := neg2llh_modpoisson_nan_area_override (fun _ => 0) (fun _ => 0) 1
    [Val.real 5] [Val.nan] 0 (by decide) (by decide) (by decide) 5 rfl rfl
    (by norm_num)
  rw [h]
  norm_num

/-- C10 — for a strictly positive observed area and a negative
expectation, the override does not apply and the formula branch evaluates
`np.log` of a negative number, so the channel value is NaN. -/
theorem neg2llh_modpoisson_neg_mu_pos_area_nan
    (flog flgam : ℚ → ℚ) (mpp : ℚ) (mus areas : List Val) (i : ℕ)
    (hi : i < mus.length) (hi' : i < areas.length)
    (hlen : i < (neg2llh_modpoisson flog flgam mus areas mpp).length)
    (m a : ℚ) (hm : mus[i] = Val.real m) (ha : areas[i] = Val.real a)
    (hapos : 0 < a) (hmneg : m < 0) (hmpp : 0 < mpp) :
    (neg2llh_modpoisson flog flgam mus areas mpp)[i] = Val.nan := by
  have hget : (neg2llh_modpoisson flog flgam mus areas mpp)[i]
      = neg2llh_chan flog flgam mpp mus[i] areas[i] := by
    simp [neg2llh_modpoisson, List.getElem_zipWith]
  rw [hget, hm, ha]
  unfold neg2llh_chan
  have hm' : ¬ (0 : ℚ) < m := not_lt.mpr (le_of_lt hmneg)
  have hmpp' : mpp ≠ 0 := ne_of_gt hmpp
  simp [hapos, hm', hmpp']

/-- C10 witness: observed area `2`, expectation `-1`, quantum `1` give
NaN. -/
theorem neg2llh_modpoisson_neg_mu_pos_area_nan_witness :
    (neg2llh_modpoisson (fun _ => 0) (fun _ => 0)
      [Val.real (-1)] [Val.real 2] 1)[0] = Val.nan :=
  neg2llh_modpoisson_neg_mu_pos_area_nan (fun _ => 0) (fun _ => 0) 1
    [Val.real (-1)] [Val.real 2] 0 (by decide) (by decide) (by decide)
    (-1) 2 rfl rfl (by norm_num) (by norm_num) (by norm_num)

/-- C1 — NaN propagation is total: a NaN predicted-pattern value or a NaN
observed area in any channel makes the event's aggregated statistic NaN.
(The saturated term feeds the observed area in as its own expectation, so
a NaN area becomes a NaN `mu` there and survives the `is_zero` override as
`2*NaN`.) -/
theorem s1_2llh_nan_propagation
    (flog flgam : ℚ → ℚ) (mpp : ℚ) (pattern areas : List Val)
    (hlen : pattern.length = areas.length)
    (i : ℕ) (hi : i < pattern.length) (hi' : i < areas.length)
    (h : pattern[i] = Val.nan ∨ areas[i] = Val.nan) :
    s1_2llh flog flgam mpp pattern areas = Val.nan := by
  have hL : i < (norm_llh_val flog flgam mpp pattern areas).length := by
    simp only [norm_llh_val, neg2llh_modpoisson, List.length_zipWith,
      List.length_map, hlen]
    omega
  have hget : (norm_llh_val flog flgam mpp pattern areas)[i]
      = Val.sub
          (neg2llh_chan flog flgam mpp (pattern[i] / Val.real mpp) areas[i])
          (neg2llh_chan flog flgam mpp (areas[i] / Val.real mpp) areas[i]) := by
    simp [norm_llh_val, neg2llh_modpoisson, List.getElem_zipWith, List.getElem_map]
  have hnan : (norm_llh_val flog flgam mpp pattern areas)[i] = Val.nan := by
    rcases h with h | h
    · rw [hget, h]
      simp [Val.sub]
    · rw [hget, h]
      cases hc : neg2llh_chan flog flgam mpp (pattern[i] / Val.real mpp) Val.nan <;>
        simp [Val.sub]
  have hmem : Val.nan ∈ norm_llh_val flog flgam mpp pattern areas := by
    rw [← hnan]
    exact List.getElem_mem hL
  exact Val.sum_eq_nan_of_mem hmem

/-- C1 witness: one NaN pattern entry among finite channels poisons the
aggregate. -/
theorem s1_2llh_nan_propagation_witness :
    s1_2llh (fun _ => 0) (fun _ => 0) 1 [Val.real 1, Val.nan]
      [Val.real 1, Val.real 2] = Val.nan :=
  s1_2llh_nan_propagation (fun _ => 0) (fun _ => 0) 1 [Val.real 1, Val.nan]
    [Val.real 1, Val.real 2] rfl 1 (by decide) (by decide) (Or.inl rfl)

/-- For a finite observed area compared against its own rescaled value,
the channel statistic is a finite real (never NaN): every sub-expression
of the formula stays in the real domain of `log`/`loggamma`, and the
override branches return finite reals. -/
theorem neg2llh_chan_saturated_real
    (flog flgam : ℚ → ℚ) (mpp : ℚ) (hmpp : 0 < mpp) (q : ℚ) :
    ∃ r, neg2llh_chan flog flgam mpp (Val.real q / Val.real mpp) (Val.real q)
      = Val.real r := by
  have hmpp' : mpp ≠ 0 := ne_of_gt hmpp
  unfold neg2llh_chan
  by_cases hq : 0 < q
  · have hdiv : 0 < q / mpp := div_pos hq hmpp
    have hdiv1 : 0 < q / mpp + 1 := by positivity
    refine ⟨2 * (q / mpp - q / mpp * flog (q / mpp) + flgam (q / mpp + 1)
      + flog mpp), ?_⟩
    simp [hmpp', hq, hdiv, hdiv1, hmpp]
  · by_cases hneg : q / mpp < 0
    · exact ⟨0, by simp [hmpp', hq, hneg]⟩
    · exact ⟨2 * (q / mpp), by simp [hmpp', hq, hneg]⟩

/-- C7 — when the predicted pattern equals the observed area vector
elementwise (all channels finite; float NaN is never equal to itself), the
aggregated likelihood-ratio statistic is exactly zero. -/
theorem s1_2llh_zero_on_perfect_match
    (flog flgam : ℚ → ℚ) (mpp : ℚ) (hmpp : 0 < mpp) (qs : List ℚ) :
    s1_2llh flog flgam mpp (qs.map Val.real) (qs.map Val.real) = Val.real 0 := by
  induction qs with
  | nil => rfl
  | cons q qs ih =>
    obtain ⟨r, hr⟩ := neg2llh_chan_saturated_real flog flgam mpp hmpp q
    have hstep : s1_2llh flog flgam mpp ((q :: qs).map Val.real)
        ((q :: qs).map Val.real)
        = (neg2llh_chan flog flgam mpp (Val.real q / Val.real mpp) (Val.real q)
            - neg2llh_chan flog flgam mpp (Val.real q / Val.real mpp) (Val.real q))
          + s1_2llh flog flgam mpp (qs.map Val.real) (qs.map Val.real) := rfl
    rw [hstep, hr, ih]
    simp

/-- C7 witness: channels `[5, 0, -1]` matched against themselves with
quantum `2` give aggregate `0`. -/
theorem s1_2llh_zero_on_perfect_match_witness :
    s1_2llh (fun _ => 0) (fun _ => 0) 2 ([5, 0, -1].map Val.real)
      ([5, 0, -1].map Val.real) = Val.real 0 :=
  s1_2llh_zero_on_perfect_match (fun _ => 0) (fun _ => 0) 2 (by norm_num)
    [5, 0, -1]

/-!
## Pattern predictor (event_patternfit.py, line 199)

```python
s1_pattern = s1_area[:, None]*(s1_map_effs[:, self.pmtbool])/np.sum(s1_map_effs[:, self.pmtbool], axis=1)[:, None]
```
for one event: mask the efficiency vector, multiply by the total area and
divide by the sum of the masked efficiencies.
-/

/-- Boolean-mask indexing `effs[pmtbool]` for one event. -/
def maskApply (eff : List Val) (mask : List Bool) : List Val :=
  (List.zip eff mask).filterMap (fun eb => if eb.2 then some eb.1 else none)

/-- The expected-area pattern for one event. -/
def s1_pattern (eff : List Val) (mask : List Bool) (area : ℚ) : List Val :=
  (maskApply eff mask).map
    (fun e => Val.real area * e / Val.sum (maskApply eff mask))

/-- Scaling helper: if a vector of cells sums to a finite value, so does
its elementwise `T * e / S` image, with the sum scaled accordingly. -/
theorem sum_scaled (T S : ℚ) (hS : S ≠ 0) :
    ∀ (l : List Val) (S' : ℚ), Val.sum l = Val.real S' →
      Val.sum (l.map fun e => Val.real T * e / Val.real S)
        = Val.real (T * S' / S) := by
  intro l
  induction l with
  | nil =>
    intro S' h
    simp only [Val.sum_nil, Val.real.injEq] at h
    simp [← h]
  | cons v l ih =>
    intro S' h
    rw [Val.sum_cons] at h
    cases v with
    | nan => simp at h
    | real a =>
      cases hsl : Val.sum l with
      | nan => rw [hsl] at h; simp at h
      | real b =>
        rw [hsl] at h
        simp only [Val.add_real_real, Val.real.injEq] at h
        rw [List.map_cons, Val.sum_cons, ih b hsl]
        simp only [Val.mul_real_real, Val.div_real_real, if_neg hS,
          Val.add_real_real, Val.real.injEq]
        rw [div_add_div_same, ← mul_add, h]

/-- C6 — the predicted pattern sums to exactly the total area over the
masked channels whenever all masked efficiencies are finite and
non-negative and their sum is positive and finite. -/
theorem s1_pattern_sums_to_total (eff : List Val) (mask : List Bool)
    (area S : ℚ)
    (hsum : Val.sum (maskApply eff mask) = Val.real S) (hpos : 0 < S)
    (_hnn : ∀ v ∈ maskApply eff mask, ∃ q, v = Val.real q ∧ 0 ≤ q) :
    Val.sum (s1_pattern eff mask area) = Val.real area := by
  unfold s1_pattern
  rw [hsum, sum_scaled area S (ne_of_gt hpos) (maskApply eff mask) S hsum]
  rw [mul_div_assoc, div_self (ne_of_gt hpos), mul_one]

/-- C6 witness: efficiencies `[1, 4, 2]` with mask `[true, false, true]`
and total area `5`: the masked sum is `3 > 0` and the pattern sums to
`5`. -/
theorem s1_pattern_sums_to_total_witness :
    Val.sum (s1_pattern [Val.real 1, Val.real 4, Val.real 2]
      [true, false, true] 5) = Val.real 5 :=
  s1_pattern_sums_to_total [Val.real 1, Val.real 4, Val.real 2]
    [true, false, true] 5 3
    (by norm_num [maskApply, Val.sum, Val.add, List.filterMap_cons]) (by norm_num)
    (by
      intro v hv
      norm_num [maskApply, List.filterMap_cons] at hv
      rcases hv with h | h
      · exact ⟨1, h, by norm_num⟩
      · exact ⟨2, h, by norm_num⟩)

/-!
## `_s1_area_fraction_top_probability` (event_patternfit.py, lines 436–466)

The wrapper validates `(k, n, p) = (area_tot*area_fraction_top, area_tot,
aft_prob)`; each violated condition issues `warnings.warn` and forces the
result to NaN; only a valid triple reaches the binomial machinery.  The
embedding returns the result together with the number of warnings issued
(the side effect made explicit); the binomial test and pmf are passed in
as parameters since no claim about this wrapper constrains the valid
branch.  The string `mode` argument is modelled as the Boolean
`discrete`. -/
def s1_area_fraction_top_probability
    (testF pmfF : ℚ → ℚ → ℚ → ℚ)
    (aft_prob area_tot area_fraction_top : ℚ) (discrete : Bool) : Val × ℕ :=
  if area_tot < area_tot * area_fraction_top ∨ 1 < aft_prob ∨ aft_prob < 0
      ∨ area_tot * area_fraction_top < 0 then
    (Val.nan,
      (if area_tot < area_tot * area_fraction_top then 1 else 0)
      + (if 1 < aft_prob ∨ aft_prob < 0 then 1 else 0)
      + (if area_tot * area_fraction_top < 0 then 1 else 0))
  else
    (Val.real (if discrete then pmfF (area_tot * area_fraction_top) area_tot aft_prob
               else testF (area_tot * area_fraction_top) area_tot aft_prob), 0)

/-- C5 — an invalid test configuration (`k > n`, `p` outside `[0,1]`, or
`k < 0`) yields NaN together with at least one recoverable warning, for
any binomial-test interpretation, and the (total) function never faults. -/
theorem s1_aft_probability_invalid_nan
    (testF pmfF : ℚ → ℚ → ℚ → ℚ) (p n f : ℚ) (discrete : Bool)
    (h : n < n * f ∨ 1 < p ∨ p < 0 ∨ n * f < 0) :
    (s1_area_fraction_top_probability testF pmfF p n f discrete).1 = Val.nan ∧
    1 ≤ (s1_area_fraction_top_probability testF pmfF p n f discrete).2 := by
  unfold s1_area_fraction_top_probability
  rw [if_pos h]
  refine ⟨rfl, ?_⟩
  rcases h with h | h | h | h
  · rw [if_pos h]; omega
  · rw [if_pos (Or.inl h : 1 < p ∨ p < 0)]; omega
  · rw [if_pos (Or.inr h : 1 < p ∨ p < 0)]; omega
  · rw [if_pos h]; omega

/-- C5 witness: inputs equivalent to `k = 10, n = 5, p = 1/2` (total area
`5`, fraction-top `2`) give NaN, a warning, and no fault. -/
theorem s1_aft_probability_invalid_nan_witness :
    (s1_area_fraction_top_probability (fun _ _ _ => 0) (fun _ _ _ => 0)
      (1/2) 5 2 false).1 = Val.nan ∧
    1 ≤ (s1_area_fraction_top_probability (fun _ _ _ => 0) (fun _ _ _ => 0)
      (1/2) 5 2 false).2 :=
  s1_aft_probability_invalid_nan (fun _ _ _ => 0) (fun _ _ _ => 0)
    (1/2) 5 2 false (Or.inl (by norm_num))

/-!
## `binom_test` (event_patternfit.py, lines 356–433)

The source computes `binom_pmf` through `exp`/`gammaln`.  Claims C4 and C8
evaluate it only at integer `k`, where the log-Gamma continuation has the
exact closed form `C(n,k) * p^k * (1-p)^(n-k)` for `k ≤ n` and is exactly
`0` for integer `k > n` (`gammaln` hits the pole of Gamma at a
non-positive integer, `exp(-inf) = 0`).  `binom_pmf` below is that exact
value.  The bracket-refinement loop additionally samples the pmf at
non-integer grid points; those samples enter only through the opaque
parameter `g : ℚ → ℚ` of `binom_test` (and the tail functions through
`cdfF`/`sfF`), so every theorem below holds for the real pmf/tails in
particular. -/

/-- The relative tolerance `1 + 1e-7` used to inflate the target
density. -/
def rerr : ℚ := 1 + 1 / 10000000

/-- Exact value of the source's `binom_pmf` at integer `k`. -/
def binom_pmf (k n : ℕ) (p : ℚ) : ℚ :=
  if k ≤ n then (n.choose k : ℚ) * p ^ k * (1 - p) ^ (n - k) else 0

/-- `np.round(np.log10 n)` for a positive integer `n`: the unique `m` with
`10^(m - 1/2) ≤ n < 10^(m + 1/2)`, i.e. the smallest `m` with
`n^2 < 10^(2m+1)` (the tie `log10 n = m + 1/2` never occurs for integer
`n`, so the banker's rounding of `np.round` is immaterial). -/
def roundLog10 (n : ℕ) : ℕ :=
  (List.range (n + 1)).findIdx (fun m => decide (n ^ 2 < 10 ^ (2 * m + 1)))

/-- `int(max(np.round(np.log10(n)) + 1, 2))`, the outer iteration count
fixed before the search (line 379). -/
def niter (n : ℕ) : ℕ := max (roundLog10 n + 1) 2

/-- Branch selection of `binom_test` (lines 381–405), everything decided
before the refinement loop: returns
`(searchUp, do_test, n_iter, j_min, j_max)`.
* `k < n*p`: search upward; if even `binom_pmf(n,n,p)` is above the target
  `d`, scan `np.arange(n, 2n)` for the first density below `d` (the scan
  leaves `do_test = False` when it never breaks); otherwise the bracket is
  `[k, n]`.
* else: if `binom_pmf(0,n,p)` is above `d`, the mirror is pinned at `0`
  and `n_iter` is overridden to `0`; otherwise the bracket is `[0, k]`. -/
def binomBranch (k n : ℕ) (p : ℚ) : Bool × Bool × ℕ × ℚ × ℚ :=
  if (k : ℚ) < (n : ℚ) * p then
    if binom_pmf n n p > binom_pmf k n p * rerr then
      match ((List.range n).map (fun t => n + t)).find?
          (fun m => decide (binom_pmf m n p < binom_pmf k n p * rerr)) with
      | some m => (true, true, niter n, (k : ℚ), (m : ℚ))
      | none => (true, false, niter n, (k : ℚ), (n : ℚ))
    else (true, true, niter n, (k : ℚ), (n : ℚ))
  else
    if binom_pmf 0 n p > binom_pmf k n p * rerr then (false, true, 0, 0, 0)
    else (false, true, niter n, 0, (k : ℚ))

/-- `_check_` of the `k < n*p` branch (line 396). -/
def check_up (d y0 y1 : ℚ) : Bool := decide (d > y1) && decide (d ≤ y0)

/-- `_check_` of the other branch (line 404). -/
def check_down (d y0 y1 : ℚ) : Bool := decide (d ≥ y0) && decide (d < y1)

/-- `np.linspace(a, b, m)` with `endpoint=True`; for `m = 1` the single
point is `a` (the `0/0` below is `0` in rational arithmetic). -/
def linspace (a b : ℚ) (m : ℕ) : List ℚ :=
  (List.range m).map (fun i => a + (b - a) * i / ((m : ℚ) - 1))

/-- Number of sample points of outer iteration `i` for bracket width `w`:
`n_pts = int(j_max - j_min)`, raised to `50` for the first two iterations
(lines 414–416). -/
def nPts (i : ℕ) (w : ℚ) : ℕ :=
  if i < 2 ∧ (Rat.floor w).toNat < 50 then 50 else (Rat.floor w).toNat

/-- The inner scan (lines 419–422): the first adjacent grid pair whose
densities straddle the target according to `check`. -/
def findBracket (g : ℚ → ℚ) (check : ℚ → ℚ → ℚ → Bool) (d : ℚ) :
    List ℚ → Option (ℚ × ℚ)
  | x :: y :: rest =>
    if check d (g x) (g y) then some (x, y) else findBracket g check d (y :: rest)
  | _ => none

/-- One outer iteration: sample the bracket and shrink it to the matching
pair, keeping it unchanged when no pair matches. -/
def refineStep (g : ℚ → ℚ) (check : ℚ → ℚ → ℚ → Bool) (d : ℚ) (i : ℕ)
    (br : ℚ × ℚ) : ℚ × ℚ :=
  match findBracket g check d (linspace br.1 br.2 (nPts i (br.2 - br.1))) with
  | some b => b
  | none => br

/-- The refinement loop and the final p-value assembly (lines 412–431):
`j = max(min((j_min+j_max)/2, n), 0)`, one-sided `sf` when `k*j == 0`,
else `cdf + sf`, clamped to `1`. -/
def binomTestCore (g cdfF sfF : ℚ → ℚ) (k n : ℕ) (p : ℚ) : ℚ :=
  match binomBranch k n p with
  | (up, _, ni, jmin, jmax) =>
    let chk := if up then check_up else check_down
    let fin := (List.range ni).foldl
      (fun b i => refineStep g chk (binom_pmf k n p * rerr) i b) (jmin, jmax)
    let j := max (min ((fin.1 + fin.2) / 2) (n : ℚ)) 0
    min 1 (if (k : ℚ) * j = 0 then sfF (max (k : ℚ) j)
           else cdfF (min (k : ℚ) j) + sfF (max (k : ℚ) j))

/-- `binom_test(k, n, p)` for integer `k`: `0.0` exactly when the target
density is zero or no mirror bracket was found (lines 409–410), otherwise
the refinement result. -/
def binom_test (g cdfF sfF : ℚ → ℚ) (k n : ℕ) (p : ℚ) : ℚ :=
  if binom_pmf k n p * rerr = 0 ∨ (binomBranch k n p).2.1 = false then 0
  else binomTestCore g cdfF sfF k n p

/-- Number of iterations executed by the outer refinement loop: `0` when
the loop is never reached (`d == 0` or no mirror) or when the `j = 0`
shortcut overrode `n_iter` to `0`; otherwise the `n_iter` of line 379. -/
def binomTestIters (k n : ℕ) (p : ℚ) : ℕ :=
  if binom_pmf k n p * rerr = 0 ∨ (binomBranch k n p).2.1 = false then 0
  else (binomBranch k n p).2.2.1

/-- The `n_iter` field of the branch selection is either the line-379
count or the shortcut's `0`. -/
theorem binomBranch_niter (k n : ℕ) (p : ℚ) :
    (binomBranch k n p).2.2.1 = 0 ∨ (binomBranch k n p).2.2.1 = niter n := by
  unfold binomBranch
  split_ifs with h1 h2 h3
  · rcases hf : ((List.range n).map (fun t => n + t)).find?
        (fun m => decide (binom_pmf m n p < binom_pmf k n p * rerr)) with _ | m <;>
      simp [hf]
  · simp
  · simp
  · simp

/-- C8 (amended) — the outer loop of `binom_test` is bounded: it runs
either `0` times (degenerate / shortcut inputs) or exactly
`max(round(log10 n) + 1, 2)` times, never more; and whenever one of the
first two iterations runs, it uses at least 50 sample points. -/
theorem binomTestIters_bounded (k n : ℕ) (p : ℚ) :
    (binomTestIters k n p = 0 ∨ binomTestIters k n p = niter n) ∧
    binomTestIters k n p ≤ niter n ∧
    (∀ i w, i < 2 → 50 ≤ nPts i w) := by
  have hb := binomBranch_niter k n p
  have hmain : binomTestIters k n p = 0 ∨ binomTestIters k n p = niter n := by
    unfold binomTestIters
    split_ifs with h
    · exact Or.inl rfl
    · exact hb
  refine ⟨hmain, ?_, ?_⟩
  · rcases hmain with h | h <;> omega
  · intro i w hi
    unfold nPts
    split_ifs with h
    · exact le_rfl
    · rw [Classical.not_and_iff_or_not_not] at h
      rcases h with h | h
      · exact absurd hi h
      · omega

/-- C8 counterexample — at the valid input `k = 10, n = 10, p = 1/100`
(`k ≥ n*p` and `binom_pmf(0,n,p)` above the target) the `j = 0` shortcut
sets `n_iter = 0`, so the outer loop runs `0` times, not
`max(round(log10 10) + 1, 2) = 2`. -/
theorem binomTestIters_not_always_niter :
    binomTestIters 10 10 (1 / 100) ≠ niter 10 := by
  have h0 : binomTestIters 10 10 (1 / 100) = 0 := by
    norm_num [binomTestIters, binomBranch, binom_pmf, rerr]
  rw [h0]
  decide

/-- C4 (amended) — whenever the target density is zero or the mirror scan
found no density below the target, `binom_test` returns exactly `0`
(a rational zero, not NaN), for every interpretation of the sampled pmf
and of the tail functions. -/
theorem binom_test_degenerate_zero (g cdfF sfF : ℚ → ℚ) (k n : ℕ) (p : ℚ)
    (h : binom_pmf k n p * rerr = 0 ∨ (binomBranch k n p).2.1 = false) :
    binom_test g cdfF sfF k n p = 0 := by
  unfold binom_test
  rw [if_pos h]

/-- C4 witness: at `k = 0, n = 1, p = 3/4` the scan over `arange(1, 2)`
never finds a density below the target, `do_test` stays false, and the
test returns `0`. -/
theorem binom_test_degenerate_zero_witness :
    binom_test (fun _ => 0) (fun _ => 0) (fun _ => 0) 0 1 (3 / 4) = 0 := by
  refine binom_test_degenerate_zero (fun _ => 0) (fun _ => 0) (fun _ => 0)
    0 1 (3 / 4) (Or.inr ?_)
  have hlist : ((List.range 1).map (fun t => 1 + t)) = [1] := rfl
  have hpred : ¬ binom_pmf 1 1 ((3:ℚ) / 4) < binom_pmf 0 1 ((3:ℚ) / 4) * rerr := by
    norm_num [binom_pmf, rerr]
  unfold binomBranch
  rw [hlist]
  rw [List.find?_cons_of_neg _ (by simpa using hpred), List.find?_nil]
  norm_num [binom_pmf, rerr]

/-- C4 counterexample — the input `k = 0, n = 10, p = 99/100` does not
exercise the degenerate branch: its target density is nonzero and the
mirror scan succeeds at `j = 11` (where the integer pmf is exactly `0`,
below the target), so `do_test` is true and the refinement loop runs. -/
theorem binom_test_mirror_found_at_0_10 :
    binom_pmf 0 10 (99 / 100) * rerr ≠ 0 ∧
    (binomBranch 0 10 (99 / 100)).2.1 = true := by
  constructor
  · norm_num [binom_pmf, rerr]
  · have hlist : ((List.range 10).map (fun t => 10 + t))
        = [10, 11, 12, 13, 14, 15, 16, 17, 18, 19] := rfl
    have h10 : ¬ binom_pmf 10 10 ((99:ℚ) / 100)
        < binom_pmf 0 10 ((99:ℚ) / 100) * rerr := by
      norm_num [binom_pmf, rerr]
    have h11 : binom_pmf 11 10 ((99:ℚ) / 100)
        < binom_pmf 0 10 ((99:ℚ) / 100) * rerr := by
      norm_num [binom_pmf, rerr]
    unfold binomBranch
    rw [hlist]
    rw [List.find?_cons_of_neg _ (by simpa using h10),
      List.find?_cons_of_pos _ (by simpa using h11)]
    norm_num [binom_pmf, rerr]

end EventPatternFit
